import Mathlib

/-!
Verification of the request admission controller (rate limiter) of the
FortressAPI-Golang repository, shallowly embedded from the Go source
(`rateLimiter`, `NewRateLimiter`, `resetVisitorCount`, `RLMiddleware`).

Embedding notes:
* `visitors` is a Go `map[string]int` whose lookups default to `0` for
  absent keys; we model it as a total function `String → Int` defaulting
  to `0`, with `incr` modelling `rl.visitors[ip]++`.
* The whole middleware body runs under `rl.mu` (a `sync.Mutex`), and the
  background reset also takes `rl.mu`; hence every critical section is a
  single atomic step, and any concurrent execution is equivalent to some
  sequence of these atomic steps.  Traces (`List Event`) are that
  sequentialisation: an element is either one middleware invocation for a
  key or one firing of the background reset timer.
* `resetVisitorCount` is an infinite loop; one iteration of its body
  (the part after `time.Sleep`) is the `Event.tick` step.
-/

namespace Fortress

/-- Go `map[string]int`: total function with default `0` for absent keys. -/
def Visitors : Type := String → Int

/-- `make(map[string]int)`: the empty visitor map, every key reads `0`. -/
def emptyVisitors : Visitors := fun _ => 0

/-- `rl.visitors[k]++`: increment the counter stored for key `k`. -/
def incr (v : Visitors) (k : String) : Visitors :=
  fun x => if x = k then v k + 1 else v x

/-- The `rateLimiter` struct from the source.  The `sync.Mutex` field is
represented by the atomicity of steps (see module comment). -/
structure rateLimiter where
  visitors : Visitors
  limit : Int
  resetTime : Int

/-- `NewRateLimiter` from the source: builds the limiter with an empty
visitor map and the given configuration, performing no validation.
(The goroutine it spawns is modelled by `Event.tick` steps in traces.) -/
def NewRateLimiter (limit : Int) (resetTime : Int) : rateLimiter :=
  { visitors := emptyVisitors, limit := limit, resetTime := resetTime }

/-- One iteration of the body of `resetVisitorCount` (after the sleep):
`rl.visitors = make(map[string]int)` under the mutex. -/
def resetVisitorCount (rl : rateLimiter) : rateLimiter :=
  { rl with visitors := emptyVisitors }

/-- An HTTP response as far as the limiter's claims observe it: status
code, body, and the optional retry-after signal carried by headers. -/
structure Response where
  status : Nat
  body : String
  retryAfter : Option Int
deriving DecidableEq

/-- `http.Error(w, "Too many requests", http.StatusTooManyRequests)`:
status 429, no Retry-After header is set by the source. -/
def tooManyResponse : Response :=
  { status := 429, body := "Too many requests", retryAfter := none }

/-- The admission decision made inside `RLMiddleware`'s critical section
(the spec's `CheckAndRecord`): increment the key's counter, then allow
unless the incremented counter exceeds the limit.  Returns the updated
limiter and the decision. -/
def CheckAndRecord (rl : rateLimiter) (k : String) : rateLimiter × Bool :=
  let v := incr rl.visitors k
  ({ rl with visitors := v }, decide (v k ≤ rl.limit))

/-- The handler returned by `RLMiddleware`, applied to one request with
admission key `k` (the source extracts `r.RemoteAddr`).  `next` is the
wrapped handler, mapping the key's request to its response.  Returns the
updated limiter, the response written, and whether `next.ServeHTTP` ran. -/
def RLMiddleware (next : String → Response) (rl : rateLimiter) (k : String) :
    rateLimiter × Response × Bool :=
  let v := incr rl.visitors k
  let rl' := { rl with visitors := v }
  if v k > rl.limit then (rl', tooManyResponse, false)
  else (rl', next k, true)

/-- One atomic step of the system: a middleware invocation for a key, or
a firing of the background reset timer. -/
inductive Event where
  | check (k : String)
  | tick
deriving DecidableEq

/-- Effect of one event on the visitor map (with the limiter's `limit`
fixed, only the map changes). -/
def stepV (v : Visitors) : Event → Visitors
  | .check k => incr v k
  | .tick => emptyVisitors

/-- Run a trace of events from a visitor map. -/
def runV (v : Visitors) : List Event → Visitors
  | [] => v
  | e :: tr => runV (stepV v e) tr

/-- The admission decision of a single `check k` step at map `v`:
allowed iff the incremented counter does not exceed `limit`. -/
def decision (limit : Int) (v : Visitors) (k : String) : Bool :=
  decide ((incr v k) k ≤ limit)

/-- The decisions received by the checks of key `k` along a trace, in
order. -/
def decisionsFor (limit : Int) (v : Visitors) (tr : List Event) (k : String) :
    List Bool :=
  match tr with
  | [] => []
  | e :: tr =>
    match e with
    | .check k' =>
      (if k' = k then [decision limit v k] else []) ++
        decisionsFor limit (stepV v (.check k')) tr k
    | .tick => decisionsFor limit (stepV v .tick) tr k

/-- A trace with no firing of the background reset timer (all events fall
inside one global reset interval). -/
def NoTicks (tr : List Event) : Prop := Event.tick ∉ tr

instance : DecidablePred NoTicks := fun tr =>
  inferInstanceAs (Decidable (Event.tick ∉ tr))

/-- Number of `check k` events in a trace. -/
def countKey (k : String) (tr : List Event) : Nat :=
  (tr.filter (fun e => e = Event.check k)).length

/-- Number of `true` entries in a list of decisions (allowed calls). -/
def countTrue (l : List Bool) : Nat := (l.filter (fun b => b)).length

/-- Number of `false` entries in a list of decisions (denied calls). -/
def countFalse (l : List Bool) : Nat := (l.filter (fun b => !b)).length

/-- The pre-increment counter values observed by the checks of key `k`
along a trace, in order (the value of `rl.visitors[k]` read by each
middleware invocation for `k` just before its `++`). -/
def preCounts (v : Visitors) (tr : List Event) (k : String) : List Int :=
  match tr with
  | [] => []
  | e :: tr =>
    match e with
    | .check k' =>
      (if k' = k then [v k] else []) ++ preCounts (stepV v (.check k')) tr k
    | .tick => preCounts (stepV v .tick) tr k

/-- Erase all middleware invocations for key `a` from a trace, leaving
other keys' checks and the timer ticks in place. -/
def removeKey (a : String) (tr : List Event) : List Event :=
  tr.filter (fun e => e ≠ Event.check a)

/-- Two visitor maps that agree on every key other than `a`. -/
def AgreeOff (a : String) (v w : Visitors) : Prop :=
  ∀ x, x ≠ a → v x = w x

/-- A generic successful response from the wrapped handler, used for
concrete instantiations. -/
def okResponse : Response := { status := 200, body := "ok", retryAfter := none }

/-- Timed traces: each atomic step paired with the time at which its
critical section executes.  Times are integers (e.g. milliseconds). -/
def times (tr : List (Int × Event)) : List Int := tr.map Prod.fst

/-- The times at which the background reset timer fires in a timed trace. -/
def tickTimes (tr : List (Int × Event)) : List Int :=
  (tr.filter (fun p => p.2 = Event.tick)).map Prod.fst

/-- A timed trace realizable by the source at reset period `R`: event
times are nondecreasing, and the background reset (started by
`NewRateLimiter`, sleeping `resetTime` between firings) fires exactly at
times `R, 2R, 3R, ...`. -/
def ValidTrace (R : Int) (tr : List (Int × Event)) : Prop :=
  List.Pairwise (· ≤ ·) (times tr) ∧
  tickTimes tr = (List.range (tickTimes tr).length).map (fun i => R * ((i : Int) + 1))

instance (R : Int) (tr : List (Int × Event)) : Decidable (ValidTrace R tr) := by
  unfold ValidTrace
  infer_instance

/-- Run a timed trace (the decisions of the source do not read the clock;
times only constrain which traces are realizable). -/
def runT (v : Visitors) (tr : List (Int × Event)) : Visitors :=
  runV v (tr.map Prod.snd)

/-- The start of key `k`'s current window, derived from a timed trace:
the time of the first check for `k` since the last global reset (none if
`k` has no live entry).  The source itself stores no such timestamp; this
is the ghost quantity the claim's `windowStart` denotes on the code. -/
def windowStartAux (k : String) (acc : Option Int) :
    List (Int × Event) → Option Int
  | [] => acc
  | (t, e) :: tr =>
    match e with
    | .tick => windowStartAux k none tr
    | .check k' =>
      windowStartAux k (if k' = k ∧ acc = none then some t else acc) tr

/-- The start of key `k`'s current window in a timed trace. -/
def windowStart (k : String) (tr : List (Int × Event)) : Option Int :=
  windowStartAux k none tr

theorem emptyVisitors_apply (k : String) : emptyVisitors k = 0 := rfl

theorem incr_apply_self (v : Visitors) (k : String) : incr v k k = v k + 1 := by
  simp [incr]

theorem incr_apply_ne (v : Visitors) (k x : String) (h : x ≠ k) :
    incr v k x = v x := by
  simp [incr, h]

theorem runV_append (v : Visitors) (tr1 tr2 : List Event) :
    runV v (tr1 ++ tr2) = runV (runV v tr1) tr2 := by
  induction tr1 generalizing v with
  | nil => rfl
  | cons e tr ih => simp [runV, ih]

theorem countTrue_cons (b : Bool) (l : List Bool) :
    countTrue (b :: l) = (if b then 1 else 0) + countTrue l := by
  cases b
  · simp [countTrue, List.filter_cons]
  · simp [countTrue, List.filter_cons]
    omega

theorem countTrue_add_countFalse (l : List Bool) :
    countTrue l + countFalse l = l.length := by
  induction l with
  | nil => rfl
  | cons b l ih => cases b <;> simp [countTrue, countFalse, List.filter_cons] at * <;> omega

theorem decisionsFor_cons_self (limit : Int) (v : Visitors) (tr : List Event)
    (k : String) :
    decisionsFor limit v (Event.check k :: tr) k =
      decision limit v k :: decisionsFor limit (incr v k) tr k := by
  simp [decisionsFor, stepV]

theorem decisionsFor_cons_ne (limit : Int) (v : Visitors) (tr : List Event)
    (k k' : String) (h : k' ≠ k) :
    decisionsFor limit v (Event.check k' :: tr) k =
      decisionsFor limit (incr v k') tr k := by
  simp [decisionsFor, stepV, h]

theorem decisionsFor_length (limit : Int) (tr : List Event) :
    ∀ (v : Visitors) (k : String),
      (decisionsFor limit v tr k).length = countKey k tr := by
  induction tr with
  | nil => intro v k; rfl
  | cons e tr ih =>
    intro v k
    cases e with
    | tick =>
      simpa [decisionsFor, stepV, countKey, List.filter_cons]
        using ih emptyVisitors k
    | check k' =>
      by_cases h : k' = k
      · subst h
        simpa [decisionsFor_cons_self, countKey, List.filter_cons]
          using ih (incr v k') k'
      · simpa [decisionsFor_cons_ne limit v tr k k' h, countKey,
          List.filter_cons, h] using ih (incr v k') k

theorem countKey_cons_self (k : String) (tr : List Event) :
    countKey k (Event.check k :: tr) = countKey k tr + 1 := by
  simp [countKey, List.filter_cons]

theorem countKey_cons_ne (k k' : String) (tr : List Event) (h : k' ≠ k) :
    countKey k (Event.check k' :: tr) = countKey k tr := by
  simp [countKey, List.filter_cons, h]

theorem countKey_cons_tick (k : String) (tr : List Event) :
    countKey k (Event.tick :: tr) = countKey k tr := by
  simp [countKey, List.filter_cons]

/-- Exact count of allowed calls for one key over a tickless trace:
`min` of the number of calls and the remaining budget `limit − v k`. -/
theorem decisionsFor_countTrue (limit : Int) (tr : List Event) :
    ∀ (v : Visitors) (k : String), NoTicks tr →
      countTrue (decisionsFor limit v tr k) =
        min (countKey k tr) ((limit - v k).toNat) := by
  induction tr with
  | nil => intro v k _; simp [decisionsFor, countTrue, countKey]
  | cons e tr ih =>
    intro v k h
    have htr : NoTicks tr := fun hm => h (List.mem_cons_of_mem _ hm)
    cases e with
    | tick => exact absurd (List.mem_cons_self _ _) h
    | check k' =>
      by_cases hk : k' = k
      · subst hk
        rw [decisionsFor_cons_self, countTrue_cons, ih (incr v k') k' htr,
          incr_apply_self, countKey_cons_self]
        simp only [decision, incr_apply_self, decide_eq_true_eq]
        by_cases hle : v k' + 1 ≤ limit
        · simp only [if_pos hle]; omega
        · simp only [if_neg hle]; omega
      · rw [decisionsFor_cons_ne limit v tr k k' hk, ih (incr v k') k htr,
          incr_apply_ne v k' k (fun hx => hk hx.symm), countKey_cons_ne k k' tr hk]

theorem noTicks_replicate (k : String) (n : Nat) :
    NoTicks (List.replicate n (Event.check k)) := by
  simp [NoTicks, List.mem_replicate]

theorem countKey_replicate (k : String) (n : Nat) :
    countKey k (List.replicate n (Event.check k)) = n := by
  induction n with
  | zero => rfl
  | succ n ih => simp [List.replicate_succ, countKey_cons_self, ih]

/-- Claim C1: for every key, over any serialization of concurrent callers
within one window (a tickless trace), the number of calls that receive
`allowed = true` equals `min` of the call count and the remaining budget,
and in particular never exceeds the configured limit. -/
theorem RLMiddleware_limit_invariant (limit : Int) (v : Visitors)
    (tr : List Event) (k : String) (htick : NoTicks tr) (hv : 0 ≤ v k) :
    countTrue (decisionsFor limit v tr k) =
      min (countKey k tr) ((limit - v k).toNat) ∧
    countTrue (decisionsFor limit v tr k) ≤ limit.toNat := by
  have h := decisionsFor_countTrue limit tr v k htick
  exact ⟨h, by rw [h]; omega⟩

/-- Witness for `RLMiddleware_limit_invariant`: 100 calls for key "a"
with limit 5 inside one window yield exactly 5 allowed and 95 denied. -/
theorem RLMiddleware_limit_invariant_witness :
    countTrue (decisionsFor 5 emptyVisitors
      (List.replicate 100 (Event.check "a")) "a") = 5 ∧
    countFalse (decisionsFor 5 emptyVisitors
      (List.replicate 100 (Event.check "a")) "a") = 95 := by
  have h := RLMiddleware_limit_invariant 5 emptyVisitors
    (List.replicate 100 (Event.check "a")) "a"
    (noTicks_replicate "a" 100) (by simp [emptyVisitors])
  have h5 : countTrue (decisionsFor 5 emptyVisitors
      (List.replicate 100 (Event.check "a")) "a") = 5 := by
    rw [h.1, countKey_replicate]
    norm_num [emptyVisitors]
    rfl
  refine ⟨h5, ?_⟩
  have hlen := decisionsFor_length 5 (List.replicate 100 (Event.check "a"))
    emptyVisitors "a"
  have hsum := countTrue_add_countFalse (decisionsFor 5 emptyVisitors
    (List.replicate 100 (Event.check "a")) "a")
  rw [countKey_replicate] at hlen
  omega

/-- Claim C2 counterexample: a denied admission check does change state.
With `limit = 0` and an empty map, the check for "a" is denied, yet the
post-state differs from the pre-state (the counter for "a" became 1). -/
theorem CheckAndRecord_denied_mutates :
    ¬ (∀ (rl : rateLimiter) (k : String),
        (CheckAndRecord rl k).2 = false → (CheckAndRecord rl k).1 = rl) := by
  intro hclaim
  have h := hclaim (NewRateLimiter 0 1) "a" (by decide)
  have h2 := congrArg (fun s => s.visitors "a") h
  norm_num [CheckAndRecord, NewRateLimiter, incr, emptyVisitors] at h2

/-- Claim C2 amended: the key's counter is incremented on every admission
check, allowed or denied alike (`rl.visitors[ip]++` runs before the limit
comparison); the configuration fields are unchanged.  In particular a
denied check against a saturated entry still raises its count. -/
theorem CheckAndRecord_always_increments (rl : rateLimiter) (k : String) :
    (CheckAndRecord rl k).1.visitors = incr rl.visitors k ∧
    (CheckAndRecord rl k).1.limit = rl.limit ∧
    (CheckAndRecord rl k).1.resetTime = rl.resetTime ∧
    (CheckAndRecord rl k).1.visitors k = rl.visitors k + 1 := by
  refine ⟨rfl, rfl, rfl, ?_⟩
  simp [CheckAndRecord, incr]

/-- Claim C6: the source's background reset, when its timer tick fires,
resets all keys' counters at once on a single global tick: after any
trace ending in a tick, every key's counter reads zero, and
`resetVisitorCount` likewise empties the whole map regardless of the
prior state of any key. -/
theorem resetVisitorCount_global (v : Visitors) (tr : List Event) (k : String)
    (rl : rateLimiter) :
    runV v (tr ++ [Event.tick]) k = 0 ∧ (resetVisitorCount rl).visitors k = 0 := by
  constructor
  · rw [runV_append]
    rfl
  · rfl

/-- Claim C7: for every request, the middleware invokes the wrapped handler
exactly when the admission decision allows it; on denial it short-circuits
with the rejection response and the handler never runs, and on allowance
the response is the handler's own, with the state update identical to the
admission decision's. -/
theorem RLMiddleware_routing (next : String → Response) (rl : rateLimiter)
    (k : String) :
    (RLMiddleware next rl k).2.2 = (CheckAndRecord rl k).2 ∧
    (RLMiddleware next rl k).1 = (CheckAndRecord rl k).1 ∧
    ((CheckAndRecord rl k).2 = false →
      (RLMiddleware next rl k).2.1 = tooManyResponse) ∧
    ((CheckAndRecord rl k).2 = true →
      (RLMiddleware next rl k).2.1 = next k) := by
  simp only [RLMiddleware, CheckAndRecord]
  by_cases h : incr rl.visitors k k > rl.limit
  · simp [h, not_le.mpr h]
  · simp [h, not_lt.mp h]

theorem preCounts_cons_self (v : Visitors) (tr : List Event) (k : String) :
    preCounts v (Event.check k :: tr) k = v k :: preCounts (incr v k) tr k := by
  simp [preCounts, stepV]

theorem preCounts_cons_ne (v : Visitors) (tr : List Event) (k k' : String)
    (h : k' ≠ k) :
    preCounts v (Event.check k' :: tr) k = preCounts (incr v k') tr k := by
  simp [preCounts, stepV, h]

theorem le_of_mem_preCounts (tr : List Event) :
    ∀ (v : Visitors) (k : String) (x : Int), NoTicks tr →
      x ∈ preCounts v tr k → v k ≤ x := by
  induction tr with
  | nil => intro v k x _ hx; simp [preCounts] at hx
  | cons e tr ih =>
    intro v k x h hx
    have htr : NoTicks tr := fun hm => h (List.mem_cons_of_mem _ hm)
    cases e with
    | tick => exact absurd (List.mem_cons_self _ _) h
    | check k' =>
      by_cases hk : k' = k
      · subst hk
        rw [preCounts_cons_self] at hx
        rcases List.mem_cons.mp hx with hx | hx
        · exact le_of_eq hx.symm
        · have := ih (incr v k') k' x htr hx
          rw [incr_apply_self] at this
          omega
      · rw [preCounts_cons_ne v tr k k' hk] at hx
        have := ih (incr v k') k x htr hx
        rwa [incr_apply_ne v k' k (fun hxx => hk hxx.symm)] at this

/-- Claim C4: under the mutex every admission is a single atomic step, so
any concurrent execution per key serializes; within one window the
pre-increment counter values observed by the calls for a key are strictly
increasing, hence pairwise distinct: no two callers for the same key ever
observe the same pre-increment count and both increment. -/
theorem CheckAndRecord_linearizable_per_key (v : Visitors) (tr : List Event)
    (k : String) (htick : NoTicks tr) :
    List.Pairwise (· < ·) (preCounts v tr k) ∧
    List.Pairwise (· ≠ ·) (preCounts v tr k) := by
  have hlt : List.Pairwise (· < ·) (preCounts v tr k) := by
    induction tr generalizing v with
    | nil => simp [preCounts]
    | cons e tr ih =>
      have htr : NoTicks tr := fun hm => htick (List.mem_cons_of_mem _ hm)
      cases e with
      | tick => exact absurd (List.mem_cons_self _ _) htick
      | check k' =>
        by_cases hk : k' = k
        · subst hk
          rw [preCounts_cons_self]
          refine List.Pairwise.cons ?_ (ih (incr v k') htr)
          intro x hx
          have := le_of_mem_preCounts tr (incr v k') k' x htr hx
          rw [incr_apply_self] at this
          omega
        · rw [preCounts_cons_ne v tr k k' hk]
          exact ih (incr v k') htr
  exact ⟨hlt, hlt.imp ne_of_lt⟩

/-- Witness for `CheckAndRecord_linearizable_per_key`: three calls for
"a" inside one window observe pre-counts 0, 1, 2 — pairwise distinct. -/
theorem CheckAndRecord_linearizable_per_key_witness :
    List.Pairwise (· ≠ ·) (preCounts emptyVisitors
      [Event.check "a", Event.check "a", Event.check "a"] "a") :=
  (CheckAndRecord_linearizable_per_key emptyVisitors
    [Event.check "a", Event.check "a", Event.check "a"] "a" (by decide)).2

theorem decisionsFor_saturated (limit : Int) (tr : List Event) :
    ∀ (v : Visitors) (k : String), NoTicks tr → limit ≤ v k →
      decisionsFor limit v tr k = List.replicate (countKey k tr) false := by
  induction tr with
  | nil => intro v k _ _; rfl
  | cons e tr ih =>
    intro v k h hsat
    have htr : NoTicks tr := fun hm => h (List.mem_cons_of_mem _ hm)
    cases e with
    | tick => exact absurd (List.mem_cons_self _ _) h
    | check k' =>
      by_cases hk : k' = k
      · subst hk
        rw [decisionsFor_cons_self, countKey_cons_self, List.replicate_succ]
        have hdec : decision limit v k' = false := by
          simp only [decision, incr_apply_self, decide_eq_false_iff_not]
          omega
        rw [hdec]
        congr 1
        apply ih (incr v k') k' htr
        rw [incr_apply_self]
        omega
      · rw [decisionsFor_cons_ne limit v tr k k' hk, countKey_cons_ne k k' tr hk]
        apply ih (incr v k') k htr
        rwa [incr_apply_ne v k' k (fun hxx => hk hxx.symm)]

/-- Claim C10: within one reset interval, denial is monotone per key: once
a check for `k` is denied, every subsequent check for `k` before the next
global reset is also denied (the counter never decreases except at a
global reset). -/
theorem denial_monotone (limit : Int) (v : Visitors) (tr1 tr2 : List Event)
    (k : String) (htick : NoTicks (tr1 ++ Event.check k :: tr2))
    (hden : decision limit (runV v tr1) k = false) :
    decisionsFor limit (runV v (tr1 ++ [Event.check k])) tr2 k =
      List.replicate (countKey k tr2) false := by
  have htr2 : NoTicks tr2 := fun hm =>
    htick (List.mem_append_right _ (List.mem_cons_of_mem _ hm))
  have hsat : limit ≤ runV v tr1 k := by
    simp only [decision, incr_apply_self, decide_eq_false_iff_not] at hden
    omega
  have hrun : runV v (tr1 ++ [Event.check k]) k = runV v tr1 k + 1 := by
    rw [runV_append]
    simp [runV, stepV, incr_apply_self]
  apply decisionsFor_saturated limit tr2 _ k htr2
  rw [hrun]
  omega

/-- Witness for `denial_monotone`: with limit 1, the second call for "a"
is denied, and the third call (still before any reset) is denied too. -/
theorem denial_monotone_witness :
    decisionsFor 1 (runV emptyVisitors ([Event.check "a"] ++ [Event.check "a"]))
      [Event.check "a"] "a" = List.replicate (countKey "a" [Event.check "a"]) false :=
  denial_monotone 1 emptyVisitors [Event.check "a"] [Event.check "a"] "a"
    (by decide) (by decide)

theorem agreeOff_incr (a : String) (v w : Visitors) (k : String)
    (h : AgreeOff a v w) : AgreeOff a (incr v k) (incr w k) := by
  intro x hx
  by_cases hxk : x = k
  · subst hxk
    simp only [incr, if_pos rfl]
    rw [h x hx]
  · rw [incr_apply_ne v k x hxk, incr_apply_ne w k x hxk]
    exact h x hx

theorem decisionsFor_agreeOff (limit : Int) (a b : String) (hba : b ≠ a)
    (tr : List Event) :
    ∀ (v w : Visitors), AgreeOff a v w →
      decisionsFor limit v tr b = decisionsFor limit w (removeKey a tr) b := by
  induction tr with
  | nil => intro v w _; rfl
  | cons e tr ih =>
    intro v w hvw
    cases e with
    | tick =>
      have hrw : removeKey a (Event.tick :: tr) = Event.tick :: removeKey a tr := by
        simp [removeKey, List.filter_cons]
      rw [hrw]
      show decisionsFor limit (stepV v .tick) tr b =
        decisionsFor limit (stepV w .tick) (removeKey a tr) b
      exact ih emptyVisitors emptyVisitors (fun x _ => rfl)
    | check k' =>
      by_cases hka : k' = a
      · subst hka
        rw [decisionsFor_cons_ne limit v tr b k' (fun hxx => hba hxx.symm)]
        have hrw : removeKey k' (Event.check k' :: tr) = removeKey k' tr := by
          simp [removeKey, List.filter_cons]
        rw [hrw]
        apply ih
        intro x hx
        rw [incr_apply_ne v k' x hx]
        exact hvw x hx
      · have hrw : removeKey a (Event.check k' :: tr) =
            Event.check k' :: removeKey a tr := by
          simp [removeKey, List.filter_cons, hka]
        rw [hrw]
        by_cases hkb : k' = b
        · subst hkb
          rw [decisionsFor_cons_self, decisionsFor_cons_self]
          have hdec : decision limit v k' = decision limit w k' := by
            simp only [decision, incr_apply_self, hvw k' hka]
          rw [hdec]
          congr 1
          exact ih (incr v k') (incr w k') (agreeOff_incr a v w k' hvw)
        · rw [decisionsFor_cons_ne limit v tr b k' hkb,
            decisionsFor_cons_ne limit w (removeKey a tr) b k' hkb]
          exact ih (incr v k') (incr w k') (agreeOff_incr a v w k' hvw)

/-- Claim C8: key independence — a check for key `a` never changes the
counter of a distinct key `b`, and erasing all of `a`'s requests from a
run changes none of the decisions returned for `b`'s requests. -/
theorem key_independence (limit : Int) (v : Visitors) (tr : List Event)
    (a b : String) (hba : b ≠ a) :
    decisionsFor limit v (removeKey a tr) b = decisionsFor limit v tr b ∧
    incr v a b = v b := by
  exact ⟨(decisionsFor_agreeOff limit a b hba tr v v (fun x _ => rfl)).symm,
    incr_apply_ne v a b hba⟩

/-- Witness for `key_independence`: saturating "a" (limit 1) between two
calls for "b" leaves "b"'s decisions identical to the run without "a". -/
theorem key_independence_witness :
    decisionsFor 1 emptyVisitors (removeKey "a"
      [Event.check "a", Event.check "b", Event.check "a", Event.check "b"]) "b" =
    decisionsFor 1 emptyVisitors
      [Event.check "a", Event.check "b", Event.check "a", Event.check "b"] "b" :=
  (key_independence 1 emptyVisitors
    [Event.check "a", Event.check "b", Event.check "a", Event.check "b"]
    "a" "b" (by decide)).1

theorem runV_mono (tr : List Event) :
    ∀ (v : Visitors) (k : String), NoTicks tr → v k ≤ runV v tr k := by
  induction tr with
  | nil => intro v k _; exact le_refl _
  | cons e tr ih =>
    intro v k h
    have htr : NoTicks tr := fun hm => h (List.mem_cons_of_mem _ hm)
    cases e with
    | tick => exact absurd (List.mem_cons_self _ _) h
    | check k' =>
      show v k ≤ runV (incr v k') tr k
      refine le_trans ?_ (ih (incr v k') k htr)
      by_cases hk : k = k'
      · subst hk
        rw [incr_apply_self]
        omega
      · rw [incr_apply_ne v k' k hk]

/-- Claim C3 counterexample: windows are not per key.  With reset period 10,
key "b" first checked at time 9 has its live entry cleared by the global
tick at time 10, only 1 < 10 time units into its window — refuting that
an entry is reset only once its own window has elapsed, tracked
independently per key. -/
theorem perKeyWindow_violated :
    ¬ (∀ (R : Int) (tr : List (Int × Event)) (t : Int) (k : String) (ws : Int),
        ValidTrace R (tr ++ [(t, Event.tick)]) →
        windowStart k tr = some ws →
        0 < runT emptyVisitors tr k →
        R ≤ t - ws) := by
  intro hclaim
  have h := hclaim 10 [(9, Event.check "b")] 10 "b" 9
    (by decide) (by decide) (by decide)
  omega

/-- Claim C3 amended: the source tracks no per-key window: every firing of
the reset timer clears all keys' counters simultaneously — even for a
key whose window began less than `resetTime` ago — and between firings a
key's counter never decreases. -/
theorem global_window_reset (v : Visitors) (tr tr2 : List (Int × Event))
    (t : Int) (k : String) (h2 : Event.tick ∉ tr2.map Prod.snd) :
    runT v (tr ++ [(t, Event.tick)]) k = 0 ∧ v k ≤ runT v tr2 k := by
  constructor
  · show runV v ((tr ++ [(t, Event.tick)]).map Prod.snd) k = 0
    rw [List.map_append, runV_append]
    rfl
  · exact runV_mono (tr2.map Prod.snd) v k h2

/-- Witness for `global_window_reset`: after the tick at time 10 the
counter of "a" reads 0, and over the tickless segment it never shrank. -/
theorem global_window_reset_witness :
    runT (incr emptyVisitors "a") ([(9, Event.check "b")] ++ [(10, Event.tick)]) "a" = 0 ∧
    incr emptyVisitors "a" "a" ≤ runT (incr emptyVisitors "a") [(5, Event.check "a")] "a" :=
  global_window_reset (incr emptyVisitors "a") [(9, Event.check "b")]
    [(5, Event.check "a")] 10 "a" (by decide)

/-- Claim C5 counterexample: a denied request's response carries no
retry-after value at all — the source writes only
`http.Error(w, "Too many requests", 429)` — refuting that denial returns
`retryAfter = windowStart + windowDuration − now`. -/
theorem retryAfter_absent :
    ¬ (∀ (rl : rateLimiter) (k : String) (next : String → Response),
        (RLMiddleware next rl k).2.2 = false →
        ∃ r : Int, 0 ≤ r ∧ (RLMiddleware next rl k).2.1.retryAfter = some r) := by
  intro hclaim
  obtain ⟨r, _, hr⟩ := hclaim (NewRateLimiter 0 1) "a" (fun _ => okResponse)
    (by decide)
  simp [RLMiddleware, NewRateLimiter, incr, emptyVisitors, tooManyResponse] at hr

/-- Claim C5 amended: on denial the middleware always answers with the
fixed 429 response whose retry-after field is absent; the state holds no
`windowStart` from which such a value could be computed. -/
theorem denied_response_constant (rl : rateLimiter) (k : String)
    (next : String → Response) (h : (RLMiddleware next rl k).2.2 = false) :
    (RLMiddleware next rl k).2.1 = tooManyResponse ∧
    (RLMiddleware next rl k).2.1.retryAfter = none := by
  by_cases hgt : (incr rl.visitors k) k > rl.limit
  · constructor
    · simp [RLMiddleware, hgt]
    · simp [RLMiddleware, hgt, tooManyResponse]
  · exfalso
    simp [RLMiddleware, hgt] at h

/-- Witness for `denied_response_constant` at a concrete denied input. -/
theorem denied_response_constant_witness :
    (RLMiddleware (fun _ => okResponse) (NewRateLimiter 0 1) "a").2.1 = tooManyResponse ∧
    (RLMiddleware (fun _ => okResponse) (NewRateLimiter 0 1) "a").2.1.retryAfter = none :=
  denied_response_constant (NewRateLimiter 0 1) "a" (fun _ => okResponse) (by decide)

/-- Claim C9 counterexample: `NewRateLimiter` does no construction-time
validation: called with `limit = 0` (≤ 0) it succeeds and hands back a
limiter carrying limit 0 — refuting that invalid configurations fail
fast at construction. -/
theorem NewRateLimiter_no_failfast :
    ¬ (∀ (limit resetTime : Int),
        (NewRateLimiter limit resetTime).limit = limit →
        0 < limit ∧ 0 < resetTime) := by
  intro hclaim
  have h := hclaim 0 1 rfl
  omega

/-- Claim C9 amended: the constructor validates nothing: for every `limit`
and `resetTime`, including non-positive ones, it returns the limiter with
exactly those fields and an empty map (there is no `evictionGrace` at
all); a non-positive limit then surfaces at request time as every request
being denied. -/
theorem NewRateLimiter_unvalidated (limit resetTime : Int) (k : String)
    (next : String → Response) (h : limit ≤ 0) :
    NewRateLimiter limit resetTime =
      { visitors := emptyVisitors, limit := limit, resetTime := resetTime } ∧
    (RLMiddleware next (NewRateLimiter limit resetTime) k).2.2 = false := by
  refine ⟨rfl, ?_⟩
  have hgt : (incr emptyVisitors k) k > limit := by
    rw [incr_apply_self]
    simp [emptyVisitors]
    omega
  simp [RLMiddleware, NewRateLimiter, hgt]

/-- Witness for `NewRateLimiter_unvalidated` at limit 0: construction
succeeds and the very first request is denied. -/
theorem NewRateLimiter_unvalidated_witness :
    NewRateLimiter 0 1 = { visitors := emptyVisitors, limit := 0, resetTime := 1 } ∧
    (RLMiddleware (fun _ => okResponse) (NewRateLimiter 0 1) "a").2.2 = false :=
  NewRateLimiter_unvalidated 0 1 "a" (fun _ => okResponse) (by decide)

/-- Witness for `RLMiddleware_routing` at a concrete denied input. -/
theorem RLMiddleware_routing_witness :
    (RLMiddleware (fun _ => { status := 200, body := "ok", retryAfter := none })
        (NewRateLimiter 0 1) "a").2.1 = tooManyResponse :=
  ((RLMiddleware_routing (fun _ => { status := 200, body := "ok", retryAfter := none })
      (NewRateLimiter 0 1) "a").2.2.1 (by decide))

end Fortress
